import Mathlib

/-!
Verification of the static content resolution pipeline of the nextjs-blog
repository.  The repository's own page module `src/pages/posts/[id].js`
(`getStaticPaths`, `getStaticProps`) is embedded directly in the `Src`
namespace.  The Content Store, Path Enumerator, Content Resolver and Build
Orchestrator live outside the provided sources (in `lib/posts.js` and the
framework's build pipeline), so they are modelled from the specification in
the `Blog` namespace.
-/

namespace Blog

/-- A content item: id, title, ISO-8601 date string, raw markdown body.
ISO-8601 date strings compare chronologically when compared as strings. -/
structure ContentItem where
  id : String
  title : String
  date : String
  rawBody : String
deriving DecidableEq, Repr

/-- Rendered content: metadata plus the HTML produced from the raw body. -/
structure RenderedContent where
  id : String
  title : String
  date : String
  html : String
deriving DecidableEq, Repr

/-- A path descriptor: one addressable identifier for dynamic content. -/
structure PathDescriptor where
  id : String
deriving DecidableEq, Repr

/-- The error taxonomy of the spec: store unreachable, id absent,
markdown transform failed for one id. -/
inductive Failure where
  | storeUnavailable
  | notFound
  | renderFailure (id : String)
deriving DecidableEq, Repr

/-- Modelled from the spec: a raw record of the backing source either
parses to a `ContentItem` or is malformed (`lib/posts.js` and its backing
directory are not among the provided sources). -/
inductive RawRecord where
  | valid (item : ContentItem)
  | malformed (key : String)
deriving DecidableEq, Repr

/-- Modelled from the spec: the Content Store is a read-only backing
source; it is either available or not, and holds a list of raw records in
source-enumeration order. -/
structure Store where
  available : Bool
  records : List RawRecord
deriving DecidableEq, Repr

/-- Parsing a raw record: a malformed record yields nothing. -/
def parseRecord : RawRecord → Option ContentItem
  | .valid item => some item
  | .malformed _ => none

/-- The valid content items of a store, in source-enumeration order;
malformed records are skipped. -/
def validItems (s : Store) : List ContentItem :=
  s.records.filterMap parseRecord

/-- Lexicographic comparison of character lists, the order in which
ISO-8601 date strings compare chronologically. -/
def leChars : List Char → List Char → Bool
  | [], _ => true
  | _ :: _, [] => false
  | a :: as, b :: bs => if a < b then true else if b < a then false else leChars as bs

theorem leChars_refl : ∀ as, leChars as as = true
  | [] => rfl
  | a :: as => by simp [leChars, leChars_refl as]

theorem leChars_total : ∀ as bs, leChars as bs = true ∨ leChars bs as = true
  | [], _ => Or.inl rfl
  | _ :: _, [] => Or.inr rfl
  | a :: as, b :: bs => by
    by_cases hab : a < b
    · exact Or.inl (by simp [leChars, hab])
    · by_cases hba : b < a
      · exact Or.inr (by simp [leChars, hba])
      · rcases leChars_total as bs with h | h
        · exact Or.inl (by simp [leChars, hab, hba, h])
        · exact Or.inr (by simp [leChars, hab, hba, h])

theorem leChars_trans : ∀ as bs cs, leChars as bs = true → leChars bs cs = true →
    leChars as cs = true
  | [], _, _, _, _ => rfl
  | _ :: _, [], _, h1, _ => by simp [leChars] at h1
  | _ :: _, _ :: _, [], _, h2 => by simp [leChars] at h2
  | a :: as, b :: bs, c :: cs, h1, h2 => by
    simp only [leChars] at h1 h2 ⊢
    by_cases hab : a < b
    · by_cases hbc : b < c
      · simp [lt_trans hab hbc]
      · by_cases hcb : c < b
        · simp [hab, hbc, hcb] at h2
        · have hbc' : b = c := le_antisymm (not_lt.mp hcb) (not_lt.mp hbc)
          subst hbc'
          simp [hab]
    · by_cases hba : b < a
      · simp [hab, hba] at h1
      · have hab' : a = b := le_antisymm (not_lt.mp hba) (not_lt.mp hab)
        subst hab'
        simp only [lt_irrefl, if_false] at h1 ⊢
        by_cases hbc : a < c
        · simp [hbc]
        · by_cases hcb : c < a
          · simp [hbc, hcb] at h2
          · simp [hbc, hcb] at h1 h2 ⊢
            exact leChars_trans as bs cs h1 h2

/-- `leChars` agrees with the lexicographic order on lists. -/
theorem leChars_iff_le : ∀ as bs : List Char,
    leChars as bs = true ↔ (as = bs ∨ List.Lex (· < ·) as bs)
  | [], [] => by simp [leChars]
  | [], _ :: _ => by simp [leChars, List.Lex.nil]
  | _ :: _, [] => by
    simp only [leChars, List.cons_ne_nil, false_or]
    exact ⟨fun h => absurd h (by simp), fun h => absurd h (List.Lex.not_nil_right _ _)⟩
  | a :: as, b :: bs => by
    by_cases hab : a < b
    · simp only [leChars, hab, if_true, true_iff]
      exact Or.inr (List.Lex.rel hab)
    · by_cases hba : b < a
      · simp only [leChars, hab, hba, if_true, if_false, Bool.false_eq_true, false_iff]
        rintro (heq | hlex)
        · injection heq with h1 _
          subst h1
          exact lt_irrefl a hba
        · cases hlex with
          | rel h => exact absurd h hab
          | cons h => exact lt_irrefl a hba
      · have hab' : a = b := le_antisymm (not_lt.mp hba) (not_lt.mp hab)
        subst hab'
        simp only [leChars, lt_irrefl, if_false]
        rw [leChars_iff_le as bs]
        constructor
        · rintro (rfl | hlex)
          · exact Or.inl rfl
          · exact Or.inr (List.Lex.cons hlex)
        · rintro (heq | hlex)
          · exact Or.inl (by injection heq)
          · cases hlex with
            | rel h => exact absurd h (lt_irrefl a)
            | cons h => exact Or.inr h

/-- Date-descending comparison used by the Content Store's sort:
`dateGe a b` holds when `a`'s date is at least `b`'s date in the
lexicographic (hence chronological, for ISO-8601 strings) order. -/
def dateGe (a b : ContentItem) : Prop := leChars b.date.data a.date.data = true

instance : DecidableRel dateGe := fun _ _ =>
  inferInstanceAs (Decidable (_ = true))

instance : IsTotal ContentItem dateGe :=
  ⟨fun a b => (leChars_total b.date.data a.date.data).elim Or.inl Or.inr⟩

instance : IsTrans ContentItem dateGe :=
  ⟨fun _ _ _ hab hbc => leChars_trans _ _ _ hbc hab⟩

/-- `dateGe` agrees with the library order on the date strings. -/
theorem dateGe_iff (a b : ContentItem) : dateGe a b ↔ b.date ≤ a.date := by
  rw [dateGe, String.le_iff_toList_le, leChars_iff_le]
  exact Iff.rfl

/-- Modelled from the spec: `listAll()` returns the valid items sorted by
date descending with a stable sort (identical dates keep
source-enumeration order); it fails with `StoreUnavailable` when the
backing source cannot be read. -/
def listAll (s : Store) : Except Failure (List ContentItem) :=
  if s.available then
    .ok ((validItems s).insertionSort dateGe)
  else
    .error .storeUnavailable

/-- Modelled from the spec: `getById(id)` returns the matching item, fails
with `NotFound` when absent and `StoreUnavailable` on read failure. -/
def getById (s : Store) (id : String) : Except Failure ContentItem :=
  if s.available then
    match (validItems s).find? (fun item => item.id = id) with
    | some item => .ok item
    | none => .error .notFound
  else
    .error .storeUnavailable

/-- Modelled from the spec: the Content Resolver calls `getById`,
propagates its failures, and applies the external markdown transform
`render` to the raw body; a transform error surfaces as `RenderFailure`
for that id. -/
def resolve (render : String → Option String) (s : Store) (id : String) :
    Except Failure RenderedContent :=
  match getById s id with
  | .error e => .error e
  | .ok item =>
    match render item.rawBody with
    | some html => .ok ⟨item.id, item.title, item.date, html⟩
    | none => .error (.renderFailure id)

/-- Modelled from the spec: the Path Enumerator derives one
`PathDescriptor` per item of `listAll()`, with no filtering and no
deduplication. -/
def enumerate (s : Store) : Except Failure (List PathDescriptor) :=
  match listAll s with
  | .error e => .error e
  | .ok items => .ok (items.map (fun item => ⟨item.id⟩))

/-- One build-output entry: either rendered content or a recorded per-id
failure. -/
inductive BuildEntry where
  | rendered (rc : RenderedContent)
  | failed (e : Failure)
deriving DecidableEq, Repr

/-- The per-id step of the Build Orchestrator: attempt `resolve(id)` and
record the outcome, catching per-id failures. -/
def buildEntry (render : String → Option String) (s : Store) (id : String) :
    BuildEntry :=
  match resolve render s id with
  | .ok rc => .rendered rc
  | .error e => .failed e

/-- Modelled from the spec: `build()` calls the Path Enumerator and then
attempts `resolve(id)` for each descriptor, aggregating per-id outcomes;
a failure of `listAll` itself propagates uncaught. -/
def build (render : String → Option String) (s : Store) :
    Except Failure (List (String × BuildEntry)) :=
  match enumerate s with
  | .error e => .error e
  | .ok paths => .ok (paths.map (fun p => (p.id, buildEntry render s p.id)))

/-- The outcome of requesting an id against the build output under the
fallback=off policy. -/
inductive RequestResult where
  | content (rc : RenderedContent)
  | failedEntry (e : Failure)
  | notFoundPage
deriving DecidableEq, Repr

/-- Modelled from the spec: under fallback=off, a requested id is looked
up in the build output; ids outside the enumerated set resolve to a
`NotFoundPage` marker. -/
def request (entries : List (String × BuildEntry)) (id : String) :
    RequestResult :=
  match entries.find? (fun e => e.1 = id) with
  | some (_, .rendered rc) => .content rc
  | some (_, .failed e) => .failedEntry e
  | none => .notFoundPage

/-- Concrete fixture: the post with id `"a"`, dated 2024-01-01. -/
def itemA : ContentItem := ⟨"a", "Post A", "2024-01-01", "bodyA"⟩

/-- Concrete fixture: the post with id `"b"`, dated 2024-02-01. -/
def itemB : ContentItem := ⟨"b", "Post B", "2024-02-01", "bodyB"⟩

/-- Concrete fixture: an available store holding exactly the posts
with ids `"a"` and `"b"`. -/
def storeAB : Store := ⟨true, [.valid itemA, .valid itemB]⟩

/-- Concrete fixture: an available store with a malformed record among
two valid ones. -/
def storeMixed : Store := ⟨true, [.valid itemA, .malformed "corrupt", .valid itemB]⟩

/-- Concrete fixture: a store whose backing source cannot be read. -/
def storeDown : Store := ⟨false, [.valid itemA]⟩

/-- Concrete fixture: a markdown transform that always succeeds. -/
def rOk : String → Option String := fun s => some (s ++ "!")

/-- Concrete fixture: a markdown transform that fails exactly on the body
of the post with id `"a"`. -/
def rFailA : String → Option String := fun s => if s == "bodyA" then none else some (s ++ "!")

end Blog

namespace Src

/-- The `params` object of a dynamic route: the key is named `id` because
the page file is named `[id].js`. -/
structure Params where
  id : String
deriving DecidableEq, Repr

/-- The context object destructured by `getStaticProps({ params })`. -/
structure Context where
  params : Params
deriving DecidableEq, Repr

/-- One element of the array returned by `getAllPostIds`:
`{ params: { id } }`. -/
structure PathEntry where
  params : Params
deriving DecidableEq, Repr

/-- The object returned by `getStaticPaths`: `{ paths, fallback }`. -/
structure StaticPathsResult where
  paths : List PathEntry
  fallback : Bool
deriving DecidableEq, Repr

/-- The `props` object returned by `getStaticProps`: `{ postData }`. -/
structure PostProps (α : Type) where
  postData : α
deriving DecidableEq, Repr

/-- The object returned by `getStaticProps`: `{ props: { postData } }`. -/
structure StaticPropsResult (α : Type) where
  props : PostProps α
deriving DecidableEq, Repr

/-- Embedding of `getStaticPaths` from `src/pages/posts/[id].js` lines
28-34: it calls `getAllPostIds` (imported from `lib/posts`, passed here as
a parameter) and returns `{ paths, fallback: false }`. -/
def getStaticPaths (getAllPostIds : List PathEntry) : StaticPathsResult :=
  { paths := getAllPostIds, fallback := false }

/-- Embedding of `getStaticProps` from `src/pages/posts/[id].js` lines
18-25: it awaits `getPostData(params.id)` (imported from `lib/posts`,
passed here as a parameter; `await` re-raises its error) and returns
`{ props: { postData } }` unchanged. -/
def getStaticProps {α ε : Type} (getPostData : String → Except ε α)
    (ctx : Context) : Except ε (StaticPropsResult α) :=
  match getPostData ctx.params.id with
  | .error e => .error e
  | .ok postData => .ok { props := { postData := postData } }

end Src

namespace Blog

theorem available_of_listAll_ok {s : Store} {items : List ContentItem}
    (h : listAll s = .ok items) : s.available = true := by
  by_cases hav : s.available = true
  · exact hav
  · rw [Bool.not_eq_true] at hav
    simp [listAll, hav] at h

theorem listAll_of_available {s : Store} (hav : s.available = true) :
    listAll s = .ok ((validItems s).insertionSort dateGe) := by
  simp [listAll, hav]

theorem items_eq_of_listAll_ok {s : Store} {items : List ContentItem}
    (h : listAll s = .ok items) :
    items = (validItems s).insertionSort dateGe := by
  rw [listAll_of_available (available_of_listAll_ok h)] at h
  injection h with h
  exact h.symm

theorem available_of_enumerate_ok {s : Store} {paths : List PathDescriptor}
    (h : enumerate s = .ok paths) : s.available = true := by
  by_cases hav : s.available = true
  · exact hav
  · rw [Bool.not_eq_true] at hav
    simp [enumerate, listAll, hav] at h

theorem paths_eq_of_enumerate_ok {s : Store} {paths : List PathDescriptor}
    (h : enumerate s = .ok paths) :
    paths = ((validItems s).insertionSort dateGe).map (fun item => ⟨item.id⟩) := by
  have hav := available_of_enumerate_ok h
  rw [enumerate, listAll_of_available hav] at h
  injection h with h
  exact h.symm

theorem mem_valid_of_path {s : Store} {paths : List PathDescriptor}
    (henum : enumerate s = .ok paths) {p : PathDescriptor} (hp : p ∈ paths) :
    ∃ item ∈ validItems s, item.id = p.id := by
  rw [paths_eq_of_enumerate_ok henum] at hp
  simp only [List.mem_map] at hp
  obtain ⟨item, hitem, rfl⟩ := hp
  exact ⟨item, (List.perm_insertionSort dateGe (validItems s)).mem_iff.mp hitem, rfl⟩

theorem getById_ok {s : Store} {id : String} (hav : s.available = true)
    (hex : ∃ item ∈ validItems s, item.id = id) :
    ∃ item, getById s id = .ok item ∧ item ∈ validItems s ∧ item.id = id := by
  have hsome : ((validItems s).find? (fun item => item.id = id)).isSome := by
    apply List.find?_isSome.mpr
    obtain ⟨item, hmem, hid⟩ := hex
    exact ⟨item, hmem, by simp [hid]⟩
  cases hfind : (validItems s).find? (fun item => item.id = id) with
  | none => rw [hfind] at hsome; simp at hsome
  | some item =>
    refine ⟨item, ?_, List.mem_of_find?_eq_some hfind, ?_⟩
    · simp [getById, hav, hfind]
    · have := List.find?_some hfind
      simpa using this

theorem length_filterMap_parseRecord : ∀ l : List RawRecord,
    (l.filterMap parseRecord).length = (l.filter (fun r => (parseRecord r).isSome)).length
  | [] => rfl
  | r :: l => by
    cases r <;>
      simp [parseRecord, List.filterMap_cons, List.filter_cons,
        length_filterMap_parseRecord l]

theorem length_filter_eq_one_of_nodup :
    ∀ l : List ContentItem, (l.map ContentItem.id).Nodup →
      ∀ x ∈ l.map ContentItem.id, (l.filter (fun i => i.id = x)).length = 1
  | [], _, x, hx => by simp at hx
  | i :: l, hnd, x, hx => by
    simp only [List.map_cons, List.nodup_cons] at hnd
    obtain ⟨hni, hnd'⟩ := hnd
    simp only [List.map_cons, List.mem_cons] at hx
    rcases hx with rfl | hx
    · have htail : l.filter (fun j => j.id = i.id) = [] := by
        rw [List.filter_eq_nil_iff]
        intro j hj
        simp only [decide_eq_true_eq]
        intro heq
        exact hni (heq ▸ List.mem_map_of_mem ContentItem.id hj)
      simp [List.filter_cons, htail]
    · have hne : ¬ i.id = x := fun he => hni (he ▸ hx)
      simp [List.filter_cons, hne, length_filter_eq_one_of_nodup l hnd' x hx]

end Blog

namespace Blog

/-- Claim C6: `resolve` is idempotent and deterministic — two calls with
the same id against unchanged store content yield byte-identical
`RenderedContent.html`, because the rendered content is a pure function
of the underlying `ContentItem` fetched by `getById`, with no hidden
state. -/
theorem resolve_deterministic {render : String → Option String} {s : Store}
    {id : String} {rc rc' : RenderedContent}
    (h1 : resolve render s id = .ok rc) (h2 : resolve render s id = .ok rc') :
    rc.html = rc'.html ∧
      ∃ item html, getById s id = .ok item ∧ render item.rawBody = some html ∧
        rc = ⟨item.id, item.title, item.date, html⟩ := by
  constructor
  · rw [h1] at h2
    injection h2 with h
    rw [h]
  · cases hby : getById s id with
    | error e => simp [resolve, hby] at h1
    | ok item =>
      cases hr : render item.rawBody with
      | none => simp [resolve, hby, hr] at h1
      | some html =>
        simp only [resolve, hby, hr, Except.ok.injEq] at h1
        exact ⟨item, html, rfl, hr, h1.symm⟩

/-- Witness for C6: two resolutions of id `"a"` in the two-post store
agree byte-for-byte, and the result is determined by the stored item. -/
theorem resolve_deterministic_witness :
    (⟨"a", "Post A", "2024-01-01", "bodyA!"⟩ : RenderedContent).html =
        (⟨"a", "Post A", "2024-01-01", "bodyA!"⟩ : RenderedContent).html ∧
      ∃ item html, getById storeAB "a" = .ok item ∧ rOk item.rawBody = some html ∧
        (⟨"a", "Post A", "2024-01-01", "bodyA!"⟩ : RenderedContent) =
          ⟨item.id, item.title, item.date, html⟩ :=
  @resolve_deterministic rOk storeAB "a"
    ⟨"a", "Post A", "2024-01-01", "bodyA!"⟩ ⟨"a", "Post A", "2024-01-01", "bodyA!"⟩
    rfl rfl

/-- Claim C7: error propagation — a `StoreUnavailable` raised from
`listAll()` propagates uncaught through `build()` (fatal to the whole
build), while on an available store every per-id `RenderFailure` or
`NotFound` is caught and aggregated into the per-id build entries, so
`build()` itself succeeds. -/
theorem build_error_propagation (render : String → Option String) (s : Store) :
    (s.available = false → listAll s = .error .storeUnavailable ∧
        build render s = .error .storeUnavailable) ∧
      (s.available = true → build render s =
        .ok (((validItems s).insertionSort dateGe).map
          (fun item => (item.id, buildEntry render s item.id)))) := by
  constructor
  · intro hav
    constructor
    · simp [listAll, hav]
    · simp [build, enumerate, listAll, hav]
  · intro hav
    simp [build, enumerate, listAll, hav, List.map_map]

/-- Witness for C7: on a store whose backing source is unreadable the
build fails with `StoreUnavailable`, while on the available two-post
store the build returns the aggregated per-id entries. -/
theorem build_error_propagation_witness :
    (listAll storeDown = .error .storeUnavailable ∧
        build rOk storeDown = .error .storeUnavailable) ∧
      build rOk storeAB =
        .ok (((validItems storeAB).insertionSort dateGe).map
          (fun item => (item.id, buildEntry rOk storeAB item.id))) :=
  ⟨(build_error_propagation rOk storeDown).1 rfl,
    (build_error_propagation rOk storeAB).2 rfl⟩

end Blog

namespace Src

/-- Claim C9: `getStaticPaths` always returns an object whose `fallback`
field is the constant `false`, no matter what `getAllPostIds` produces;
the lazy-generate (fallback) extension is never enabled by this code. -/
theorem getStaticPaths_fallback_false (getAllPostIds : List PathEntry) :
    (getStaticPaths getAllPostIds).fallback = false := rfl

/-- Claim C10: `getStaticProps` is an exact pass-through — whenever
`getPostData params.id` succeeds with `postData`, the returned value is
precisely `{ props: { postData } }` with `postData` unmodified. -/
theorem getStaticProps_passthrough {α ε : Type}
    (getPostData : String → Except ε α) (ctx : Context) (pd : α)
    (h : getPostData ctx.params.id = .ok pd) :
    getStaticProps getPostData ctx = .ok ⟨⟨pd⟩⟩ := by
  simp [getStaticProps, h]

/-- Witness for C10: a concrete `getPostData` returning the number 42 for
every id is passed through unchanged for the post id `"ssg-ssr"`. -/
theorem getStaticProps_passthrough_witness :
    getStaticProps (fun _ => (Except.ok 42 : Except Unit Nat)) ⟨⟨"ssg-ssr"⟩⟩ =
      .ok ⟨⟨42⟩⟩ :=
  getStaticProps_passthrough (fun _ => (Except.ok 42 : Except Unit Nat)) ⟨⟨"ssg-ssr"⟩⟩ 42 rfl

end Src

namespace Blog

/-- Claim C5: for every store, the sequence returned by `listAll()` is
sorted by date in descending order, and any two items with identical
dates retain their relative source-enumeration order (stable sort): for
every date `d`, the sublist of items dated `d` equals the corresponding
sublist of the store's valid items in source order. -/
theorem listAll_sorted_stable {s : Store} {items : List ContentItem}
    (h : listAll s = .ok items) :
    items.Pairwise (fun a b => b.date ≤ a.date) ∧
      ∀ d, items.filter (fun i => i.date = d) =
        (validItems s).filter (fun i => i.date = d) := by
  have heq := items_eq_of_listAll_ok h
  subst heq
  constructor
  · exact (List.sorted_insertionSort dateGe (validItems s)).imp
      (fun hab => (dateGe_iff _ _).mp hab)
  · intro d
    have hpw : ((validItems s).filter (fun i => i.date = d)).Pairwise dateGe := by
      apply List.pairwise_of_forall_mem_list
      intro a ha b hb
      have hda : a.date = d := by simpa using (List.mem_filter.mp ha).2
      have hdb : b.date = d := by simpa using (List.mem_filter.mp hb).2
      show leChars b.date.data a.date.data = true
      rw [hda, hdb]
      exact leChars_refl _
    have hsub := (List.sublist_insertionSort hpw
      (List.filter_sublist (validItems s))).filter (fun i => decide (i.date = d))
    have hff : (((validItems s).filter (fun i => i.date = d)).filter
        (fun i => i.date = d)) = (validItems s).filter (fun i => i.date = d) := by
      simp [List.filter_filter]
    rw [hff] at hsub
    have hperm := (List.perm_insertionSort dateGe (validItems s)).filter
      (fun i => decide (i.date = d))
    exact (hsub.eq_of_length hperm.length_eq.symm).symm

/-- Witness for C5: in the two-post store the item dated `2024-02-01`
precedes the item dated `2024-01-01`, and each date class keeps its
source order. -/
theorem listAll_sorted_stable_witness :
    [itemB, itemA].Pairwise (fun a b => b.date ≤ a.date) ∧
      ∀ d, [itemB, itemA].filter (fun i => i.date = d) =
        (validItems storeAB).filter (fun i => i.date = d) :=
  @listAll_sorted_stable storeAB [itemB, itemA] rfl

/-- Claim C8: for every readable store, `listAll()` returns exactly the
valid records — every malformed entry is skipped rather than failing the
call — so the length of the returned sequence equals the number of valid
records, and every returned item comes from a valid record of the
backing source. -/
theorem listAll_skips_malformed {s : Store} (hav : s.available = true) :
    ∃ items, listAll s = .ok items ∧
      items.length = (s.records.filter (fun r => (parseRecord r).isSome)).length ∧
      ∀ item ∈ items, RawRecord.valid item ∈ s.records := by
  refine ⟨(validItems s).insertionSort dateGe, listAll_of_available hav, ?_, ?_⟩
  · rw [List.length_insertionSort]
    exact length_filterMap_parseRecord s.records
  · intro item hitem
    have hmem : item ∈ validItems s :=
      (List.perm_insertionSort dateGe (validItems s)).mem_iff.mp hitem
    obtain ⟨r, hr, hparse⟩ := List.mem_filterMap.mp hmem
    cases r with
    | valid i =>
      injection hparse with hi
      exact hi ▸ hr
    | malformed key => simp [parseRecord] at hparse

/-- Witness for C8: in a store with two valid records and one malformed
one, `listAll()` returns two items, each backed by a valid record. -/
theorem listAll_skips_malformed_witness :
    ∃ items, listAll storeMixed = .ok items ∧
      items.length =
        (storeMixed.records.filter (fun r => (parseRecord r).isSome)).length ∧
      ∀ item ∈ items, RawRecord.valid item ∈ storeMixed.records :=
  @listAll_skips_malformed storeMixed rfl

end Blog

namespace Blog

/-- Claim C4: `enumerate()` yields exactly one `PathDescriptor` per item of
`listAll()` — no filtering, no additions, no deduplication — and, under
the store's uniqueness invariant, every `PathDescriptor.id` corresponds
to exactly one `ContentItem`. -/
theorem enumerate_exact {s : Store} {items : List ContentItem}
    (h : listAll s = .ok items)
    (hunique : ((validItems s).map ContentItem.id).Nodup) :
    enumerate s = .ok (items.map (fun item => (⟨item.id⟩ : PathDescriptor))) ∧
      ∀ p ∈ items.map (fun item => (⟨item.id⟩ : PathDescriptor)),
        (items.filter (fun item => item.id = p.id)).length = 1 := by
  constructor
  · simp [enumerate, h]
  · intro p hp
    have heq := items_eq_of_listAll_ok h
    have hperm : items.Perm (validItems s) :=
      heq ▸ List.perm_insertionSort dateGe (validItems s)
    simp only [List.mem_map] at hp
    obtain ⟨item, hitem, rfl⟩ := hp
    show (items.filter (fun i => i.id = item.id)).length = 1
    have hmemid : item.id ∈ (validItems s).map ContentItem.id :=
      List.mem_map_of_mem ContentItem.id (hperm.mem_iff.mp hitem)
    have hlen := (hperm.filter (fun i => decide (i.id = item.id))).length_eq
    rw [hlen]
    exact length_filter_eq_one_of_nodup (validItems s) hunique item.id hmemid

/-- Witness for C4: for the two-post store, `enumerate()` gives exactly the
descriptors of the two listed items and each id matches exactly one item. -/
theorem enumerate_exact_witness :
    enumerate storeAB =
        .ok ([itemB, itemA].map (fun item => (⟨item.id⟩ : PathDescriptor))) ∧
      ∀ p ∈ [itemB, itemA].map (fun item => (⟨item.id⟩ : PathDescriptor)),
        ([itemB, itemA].filter (fun item => item.id = p.id)).length = 1 :=
  @enumerate_exact storeAB [itemB, itemA] rfl (by decide)

/-- Claim C2: for every id produced by the path enumerator, `resolve`
either succeeds with a `RenderedContent` or fails with the recorded
`RenderFailure` for that id; the `NotFound` branch is unreachable for
enumerated ids. -/
theorem enumerated_resolve_safe {render : String → Option String} {s : Store}
    {paths : List PathDescriptor} (henum : enumerate s = .ok paths)
    {p : PathDescriptor} (hp : p ∈ paths) :
    (∃ rc, resolve render s p.id = .ok rc) ∨
      resolve render s p.id = .error (.renderFailure p.id) := by
  obtain ⟨item, hby, hmem, hid⟩ :=
    getById_ok (available_of_enumerate_ok henum) (mem_valid_of_path henum hp)
  cases hr : render item.rawBody with
  | some html =>
    exact Or.inl ⟨⟨item.id, item.title, item.date, html⟩, by simp [resolve, hby, hr]⟩
  | none => exact Or.inr (by simp [resolve, hby, hr])

/-- Witness for C2: resolving the enumerated id `"b"` of the two-post
store succeeds or records a render failure, never `NotFound`. -/
theorem enumerated_resolve_safe_witness :
    (∃ rc, resolve rOk storeAB (PathDescriptor.mk "b").id = .ok rc) ∨
      resolve rOk storeAB (PathDescriptor.mk "b").id =
        .error (.renderFailure (PathDescriptor.mk "b").id) :=
  @enumerated_resolve_safe rOk storeAB [⟨"b"⟩, ⟨"a"⟩] rfl ⟨"b"⟩ (by decide)

/-- Claim C1: under fallback=off, `build()` returns one entry per
enumerated id and nothing else, every entry holds a `RenderedContent`
(when the transform succeeds on the stored bodies), and requesting any id
outside the enumerated set yields the `NotFoundPage` marker. -/
theorem build_fallback_off_exact {render : String → Option String} {s : Store}
    {paths : List PathDescriptor} (henum : enumerate s = .ok paths)
    (hrender : ∀ item ∈ validItems s, (render item.rawBody).isSome = true) :
    ∃ entries, build render s = .ok entries ∧
      entries.map Prod.fst = paths.map PathDescriptor.id ∧
      (∀ e ∈ entries, ∃ rc, e.2 = BuildEntry.rendered rc) ∧
      ∀ id, id ∉ paths.map PathDescriptor.id →
        request entries id = RequestResult.notFoundPage := by
  refine ⟨paths.map (fun p => (p.id, buildEntry render s p.id)), ?_, ?_, ?_, ?_⟩
  · simp [build, henum]
  · rw [List.map_map]
    rfl
  · intro e he
    simp only [List.mem_map] at he
    obtain ⟨p, hp, rfl⟩ := he
    obtain ⟨item, hby, hmem, hid⟩ :=
      getById_ok (available_of_enumerate_ok henum) (mem_valid_of_path henum hp)
    obtain ⟨html, hr⟩ := Option.isSome_iff_exists.mp (hrender item hmem)
    exact ⟨⟨item.id, item.title, item.date, html⟩,
      by simp [buildEntry, resolve, hby, hr]⟩
  · intro id hid
    have hnone : (paths.map (fun p => (p.id, buildEntry render s p.id))).find?
        (fun e => e.1 = id) = none := by
      apply List.find?_eq_none.mpr
      intro e he
      simp only [List.mem_map] at he
      obtain ⟨p, hp, rfl⟩ := he
      simp only [decide_eq_true_eq]
      intro heq
      exact hid (heq ▸ List.mem_map_of_mem PathDescriptor.id hp)
    simp [request, hnone]

/-- Witness for C1: building the store with ids `{"a","b"}` yields exactly
one rendered entry per enumerated id, and any other id — such as `"c"` —
resolves to `NotFoundPage`. -/
theorem build_fallback_off_exact_witness :
    ∃ entries, build rOk storeAB = .ok entries ∧
      entries.map Prod.fst =
        ([⟨"b"⟩, ⟨"a"⟩] : List PathDescriptor).map PathDescriptor.id ∧
      (∀ e ∈ entries, ∃ rc, e.2 = BuildEntry.rendered rc) ∧
      ∀ id, id ∉ ([⟨"b"⟩, ⟨"a"⟩] : List PathDescriptor).map PathDescriptor.id →
        request entries id = RequestResult.notFoundPage :=
  @build_fallback_off_exact rOk storeAB [⟨"b"⟩, ⟨"a"⟩] rfl (by decide)

/-- Claim C3: a `RenderFailure` while resolving one id is isolated to that
id — the build records that id as failed, still produces an entry for
every other enumerated id, and does not abort: `build()` still returns
successfully. -/
theorem renderFailure_isolated {render : String → Option String} {s : Store}
    {paths : List PathDescriptor} (henum : enumerate s = .ok paths)
    {bad : PathDescriptor} (hmem : bad ∈ paths)
    (hf : resolve render s bad.id = .error (.renderFailure bad.id)) :
    ∃ entries, build render s = .ok entries ∧
      entries.map Prod.fst = paths.map PathDescriptor.id ∧
      (bad.id, BuildEntry.failed (.renderFailure bad.id)) ∈ entries ∧
      ∀ q ∈ paths, (q.id, buildEntry render s q.id) ∈ entries := by
  refine ⟨paths.map (fun p => (p.id, buildEntry render s p.id)), ?_, ?_, ?_, ?_⟩
  · simp [build, henum]
  · rw [List.map_map]
    rfl
  · exact List.mem_map.mpr ⟨bad, hmem, by simp [buildEntry, hf]⟩
  · intro q hq
    exact List.mem_map.mpr ⟨q, hq, rfl⟩

/-- Witness for C3: with a transform that fails exactly on the body of
post `"a"`, the build still succeeds, keeps an entry per id, marks `"a"`
as failed, and keeps the entry for `"b"`. -/
theorem renderFailure_isolated_witness :
    ∃ entries, build rFailA storeAB = .ok entries ∧
      entries.map Prod.fst =
        ([⟨"b"⟩, ⟨"a"⟩] : List PathDescriptor).map PathDescriptor.id ∧
      ((PathDescriptor.mk "a").id,
        BuildEntry.failed (.renderFailure (PathDescriptor.mk "a").id)) ∈ entries ∧
      ∀ q ∈ ([⟨"b"⟩, ⟨"a"⟩] : List PathDescriptor),
        (q.id, buildEntry rFailA storeAB q.id) ∈ entries :=
  @renderFailure_isolated rFailA storeAB [⟨"b"⟩, ⟨"a"⟩] rfl ⟨"a"⟩ (by decide) rfl

end Blog
